import Mathlib

/-!
Verification of the semantic similarity matcher of the SoftwoodLumber
repository.  The function under study is `find_similar_propositions`
(src/src/QueryJson.py lines 45-82; byte-identical copies live in
src/src/new_document_analysis/compare_claims_to_db.py and
src/streamlit_app/pages/5_Semantic_Search.py):

    similarities = np.dot(db_embeddings, query_embedding)
    matching_indices = np.where(similarities >= threshold)[0]
    if len(matching_indices) == 0:
        top_indices = np.argsort(similarities)[-top_k:][::-1]
    else:
        sorted_indices = matching_indices[np.argsort(similarities[matching_indices])[::-1]]
        top_indices = sorted_indices[:top_k]
    results = [ {text, id, similarity[idx]} for idx in top_indices ]

Scalars are embedded as exact rationals; a second embedding over a
NaN-extended scalar type captures the IEEE non-finite behaviour of the
same source lines.  numpy primitives (`np.dot`, `np.where`, `np.argsort`,
fancy indexing) and Python slices are modelled individually below.
-/

/-- Failure raised by `np.dot` when operand shapes disagree
(numpy `ValueError: shapes not aligned`); this is the only failure the
source function can produce — it contains no explicit validation of its
own.  The spec names this failure mode `DimensionMismatch`. -/
inductive NpError where
  | dimensionMismatch
deriving DecidableEq

/-- Entry of `db_propositions`.  The source stores Python dicts and probes
the keys `db_proposition` / `text` (falling back to the first string field)
for the display text; that key probing is abstracted into a single `text`
field, which the claims never inspect. -/
structure DbProposition where
  id : String
  text : String
deriving DecidableEq

/-- One element of the result list of `find_similar_propositions`:
the dict `{db_propositions: ..., id: ..., similarity: ...}` built in the
source's result loop. -/
structure MatchResult where
  db_propositions : String
  id : String
  similarity : ℚ
deriving DecidableEq

/-- Plain dot product of two vectors, `dot(row, query)`. -/
def listDot (v w : List ℚ) : ℚ :=
  (List.zipWith (· * ·) v w).sum

/-- Model of `np.dot(db_embeddings, query_embedding)` for a matrix (list of
rows) against a vector: numpy checks that the shared axis agrees and raises
`ValueError: shapes not aligned` otherwise; on success the result is the
vector of row-by-query dot products.  The empty collection is modelled as a
`(0, d)` matrix, giving an empty similarity vector. -/
def np_dot_mv (A : List (List ℚ)) (v : List ℚ) : Except NpError (List ℚ) :=
  if A.all (fun row => row.length = v.length) then
    .ok (A.map (fun row => listDot row v))
  else
    .error .dimensionMismatch

/-- Model of `np.where(similarities >= threshold)[0]`: the ascending list of
indices whose similarity reaches the threshold. -/
def np_where_ge (a : List ℚ) (threshold : ℚ) : List ℕ :=
  (List.range a.length).filter (fun i => decide (threshold ≤ a.getD i 0))

/-- Comparison key realising `np.argsort a` as a sort of the index list:
index `i` comes before `j` when its value is smaller, ties resolved by
ascending index (the order numpy's stable insertion sort produces). -/
def argsortKey (a : List ℚ) (i j : ℕ) : Prop :=
  a.getD i 0 < a.getD j 0 ∨ (a.getD i 0 = a.getD j 0 ∧ i ≤ j)

instance argsortKey.decRel (a : List ℚ) : DecidableRel (argsortKey a) := fun i j =>
  decidable_of_iff (a.getD i 0 < a.getD j 0 ∨ (a.getD i 0 = a.getD j 0 ∧ i ≤ j)) Iff.rfl

instance argsortKey.total (a : List ℚ) : IsTotal ℕ (argsortKey a) where
  total i j := by
    unfold argsortKey
    rcases lt_trichotomy (a.getD i 0) (a.getD j 0) with h | h | h
    · exact Or.inl (Or.inl h)
    · rcases le_total i j with hij | hij
      · exact Or.inl (Or.inr ⟨h, hij⟩)
      · exact Or.inr (Or.inr ⟨h.symm, hij⟩)
    · exact Or.inr (Or.inl h)

instance argsortKey.transitive (a : List ℚ) : IsTrans ℕ (argsortKey a) where
  trans i j k hij hjk := by
    unfold argsortKey at hij hjk ⊢
    rcases hij with h1 | ⟨e1, le1⟩ <;> rcases hjk with h2 | ⟨e2, le2⟩
    · exact Or.inl (h1.trans h2)
    · exact Or.inl (lt_of_lt_of_le h1 (le_of_eq e2))
    · exact Or.inl (lt_of_le_of_lt (le_of_eq e1) h2)
    · exact Or.inr ⟨e1.trans e2, le1.trans le2⟩

/-- Model of `np.argsort(a)`: the permutation of `0..len(a)` that sorts the
values of `a` ascending.  The model is deterministic and keeps equal values
in ascending index order; this coincides with numpy below its small-array
cutoff (arrays of at most 15 elements are insertion-sorted, stably), while
above it numpy's introsort may permute equal values.  Every theorem below
is independent of the tie order except the tie-order theorem itself, which
carries an explicit size bound restricting it to the stable regime. -/
def np_argsort (a : List ℚ) : List ℕ :=
  (List.range a.length).insertionSort (argsortKey a)

/-- Model of the Python slice `l[-k:]` for a natural `k`: the last
`min k l.length` elements when `k > 0`, and the whole list when `k = 0`
(`l[-0:]` is `l[0:]`). -/
def pySliceLast {α : Type} (k : ℕ) (l : List α) : List α :=
  if k = 0 then l else l.drop (l.length - k)

/-- Model of numpy fancy indexing `arr[positions]` for an integer array. -/
def np_fancy_index (arr : List ℕ) (positions : List ℕ) : List ℕ :=
  positions.map (fun p => arr.getD p 0)

/-- Lines 52-61 of src/src/QueryJson.py: the selection of `top_indices`
from the similarity vector.  Threshold path: restrict to the indices that
reach the threshold, order them by descending similarity
(`matching_indices[np.argsort(similarities[matching_indices])[::-1]]`) and
keep the first `top_k`.  Fallback path (no index reaches the threshold):
`np.argsort(similarities)[-top_k:][::-1]`, the `top_k` indices of largest
similarity in descending order. -/
def select_top_indices (similarities : List ℚ) (threshold : ℚ) (top_k : ℕ) : List ℕ :=
  let matching_indices := np_where_ge similarities threshold
  if matching_indices.length = 0 then
    (pySliceLast top_k (np_argsort similarities)).reverse
  else
    let sorted_indices :=
      np_fancy_index matching_indices
        ((np_argsort (matching_indices.map (fun i => similarities.getD i 0))).reverse)
    sorted_indices.take top_k

/-- The `top_indices` value computed by `find_similar_propositions`,
exposed as its own function so theorems can speak about the selected
original indices. -/
def selected_indices (query_embedding : List ℚ) (db_embeddings : List (List ℚ))
    (threshold : ℚ) (top_k : ℕ) : Except NpError (List ℕ) :=
  match np_dot_mv db_embeddings query_embedding with
  | .error e => .error e
  | .ok similarities => .ok (select_top_indices similarities threshold top_k)

/-- Lines 45-82 of src/src/QueryJson.py: compute the similarity vector,
select `top_indices`, and emit one result record per selected index with
`similarity = float(similarities[idx])`. -/
def find_similar_propositions (query_embedding : List ℚ) (db_embeddings : List (List ℚ))
    (db_propositions : List DbProposition) (threshold : ℚ) (top_k : ℕ) :
    Except NpError (List MatchResult) :=
  match np_dot_mv db_embeddings query_embedding with
  | .error e => .error e
  | .ok similarities =>
      .ok ((select_top_indices similarities threshold top_k).map (fun idx =>
        ⟨(db_propositions.getD idx ⟨"", "Unknown proposition"⟩).text,
         (db_propositions.getD idx ⟨"", "Unknown proposition"⟩).id,
         similarities.getD idx 0⟩))

/-- Squared L2 norm of a vector, used to phrase unit-normalization over the
rational scalar model. -/
def sumSq (v : List ℚ) : ℚ :=
  (v.map (fun x => x * x)).sum

/-- IEEE scalar fragment with a NaN value: the embedding of the same source
function is repeated over this type to examine its behaviour on non-finite
inputs (claims about NaN/Inf handling). -/
inductive FVal where
  | fin (q : ℚ)
  | nan
deriving DecidableEq

/-- IEEE multiplication on the NaN fragment: any NaN operand yields NaN. -/
def FVal.mul : FVal → FVal → FVal
  | fin a, fin b => fin (a * b)
  | _, _ => nan

/-- IEEE addition on the NaN fragment: any NaN operand yields NaN. -/
def FVal.add : FVal → FVal → FVal
  | fin a, fin b => fin (a + b)
  | _, _ => nan

/-- The IEEE comparison `x >= y` used by `np.where(similarities >= t)`:
false whenever either operand is NaN. -/
def FVal.fge : FVal → FVal → Bool
  | fin a, fin b => decide (b ≤ a)
  | _, _ => false

/-- The comparison used by numpy sorting, under which NaN sorts to the end
(NaN is treated as greater than every value). -/
def FVal.sortLt : FVal → FVal → Bool
  | fin a, fin b => decide (a < b)
  | fin _, nan => true
  | nan, _ => false

/-- Dot product over the NaN fragment. -/
def listDotF (v w : List FVal) : FVal :=
  (List.zipWith FVal.mul v w).foldr FVal.add (FVal.fin 0)

/-- The `np.dot(db_embeddings, query_embedding)` model over the NaN
fragment; the shape check is exactly as in `np_dot_mv`. -/
def np_dot_mvF (A : List (List FVal)) (v : List FVal) : Except NpError (List FVal) :=
  if A.all (fun row => row.length = v.length) then
    .ok (A.map (fun row => listDotF row v))
  else
    .error .dimensionMismatch

/-- The `np.where(similarities >= threshold)[0]` model over the NaN
fragment, using IEEE `>=` (false on NaN operands). -/
def np_where_geF (a : List FVal) (threshold : FVal) : List ℕ :=
  (List.range a.length).filter (fun i => FVal.fge (a.getD i (FVal.fin 0)) threshold)

/-- Argsort key over the NaN fragment: numpy's sort order (NaN last), ties
by ascending index. -/
def argsortKeyF (a : List FVal) (i j : ℕ) : Prop :=
  FVal.sortLt (a.getD i (FVal.fin 0)) (a.getD j (FVal.fin 0)) = true ∨
    (a.getD i (FVal.fin 0) = a.getD j (FVal.fin 0) ∧ i ≤ j)

instance argsortKeyF.decRel (a : List FVal) : DecidableRel (argsortKeyF a) := fun i j =>
  decidable_of_iff
    (FVal.sortLt (a.getD i (FVal.fin 0)) (a.getD j (FVal.fin 0)) = true ∨
      (a.getD i (FVal.fin 0) = a.getD j (FVal.fin 0) ∧ i ≤ j)) Iff.rfl

/-- The `np.argsort` model over the NaN fragment. -/
def np_argsortF (a : List FVal) : List ℕ :=
  (List.range a.length).insertionSort (argsortKeyF a)

/-- Result record of the matcher over the NaN fragment. -/
structure MatchResultF where
  db_propositions : String
  id : String
  similarity : FVal
deriving DecidableEq

/-- Lines 52-61 of src/src/QueryJson.py over the NaN fragment (same
selection logic as `select_top_indices`). -/
def select_top_indicesF (similarities : List FVal) (threshold : FVal) (top_k : ℕ) : List ℕ :=
  let matching_indices := np_where_geF similarities threshold
  if matching_indices.length = 0 then
    (pySliceLast top_k (np_argsortF similarities)).reverse
  else
    let sorted_indices :=
      np_fancy_index matching_indices
        ((np_argsortF (matching_indices.map (fun i => similarities.getD i (FVal.fin 0)))).reverse)
    sorted_indices.take top_k

/-- Lines 45-82 of src/src/QueryJson.py over the NaN fragment: identical to
`find_similar_propositions` with IEEE scalar semantics, so that inputs
containing non-finite values can be examined. -/
def find_similar_propositionsF (query_embedding : List FVal) (db_embeddings : List (List FVal))
    (db_propositions : List DbProposition) (threshold : FVal) (top_k : ℕ) :
    Except NpError (List MatchResultF) :=
  match np_dot_mvF db_embeddings query_embedding with
  | .error e => .error e
  | .ok similarities =>
      .ok ((select_top_indicesF similarities threshold top_k).map (fun idx =>
        ⟨(db_propositions.getD idx ⟨"", "Unknown proposition"⟩).text,
         (db_propositions.getD idx ⟨"", "Unknown proposition"⟩).id,
         similarities.getD idx (FVal.fin 0)⟩))

/-- The argsort index list is a permutation of `0..len(a)`. -/
theorem np_argsort_perm (a : List ℚ) : (np_argsort a).Perm (List.range a.length) :=
  List.perm_insertionSort _ _

/-- Argsort returns as many indices as the array has entries. -/
theorem np_argsort_length (a : List ℚ) : (np_argsort a).length = a.length := by
  simpa using (np_argsort_perm a).length_eq

/-- Membership in the argsort output is exactly being an in-range index. -/
theorem mem_np_argsort {a : List ℚ} {i : ℕ} : i ∈ np_argsort a ↔ i < a.length := by
  rw [(np_argsort_perm a).mem_iff, List.mem_range]

/-- The argsort output is sorted under the argsort key. -/
theorem np_argsort_sorted (a : List ℚ) : List.Pairwise (argsortKey a) (np_argsort a) :=
  List.sorted_insertionSort _ _

/-- The argsort output has no duplicate indices. -/
theorem np_argsort_nodup (a : List ℚ) : (np_argsort a).Nodup :=
  (np_argsort_perm a).symm.nodup (List.nodup_range _)

/-- Characterisation of membership in the `np.where` index list. -/
theorem mem_np_where_ge {a : List ℚ} {t : ℚ} {i : ℕ} :
    i ∈ np_where_ge a t ↔ i < a.length ∧ t ≤ a.getD i 0 := by
  simp [np_where_ge, List.mem_filter, List.mem_range]

/-- The `np.where` index list is strictly ascending. -/
theorem np_where_ge_sorted (a : List ℚ) (t : ℚ) :
    List.Pairwise (· < ·) (np_where_ge a t) :=
  List.Pairwise.sublist (List.filter_sublist _) (List.pairwise_lt_range _)

/-- The `np.where` index list has no duplicates. -/
theorem np_where_ge_nodup (a : List ℚ) (t : ℚ) : (np_where_ge a t).Nodup :=
  (np_where_ge_sorted a t).imp (fun h => Nat.ne_of_lt h)

/-- The `np.where` index list is no longer than the array. -/
theorem np_where_ge_length_le (a : List ℚ) (t : ℚ) :
    (np_where_ge a t).length ≤ a.length := by
  simpa using List.length_filter_le _ (List.range a.length)

/-- Reading a mapped `getD` list at an in-range position. -/
theorem getD_map_getD (m : List ℕ) (a : List ℚ) {p : ℕ} (hp : p < m.length) :
    (m.map (fun i => a.getD i 0)).getD p 0 = a.getD (m.getD p 0) 0 := by
  rw [List.getD_eq_getElem _ _ (by simpa using hp), List.getElem_map,
    List.getD_eq_getElem m 0 hp]

/-- The Python slice `l[-k:]` is a `drop`. -/
theorem pySliceLast_eq_drop {α : Type} (k : ℕ) (l : List α) :
    ∃ m, pySliceLast k l = l.drop m := by
  unfold pySliceLast
  split
  · exact ⟨0, (List.drop_zero l).symm⟩
  · exact ⟨l.length - k, rfl⟩

/-- The Python slice `l[-k:]` is a sublist of `l`. -/
theorem pySliceLast_sublist {α : Type} (k : ℕ) (l : List α) :
    (pySliceLast k l).Sublist l := by
  obtain ⟨m, hm⟩ := pySliceLast_eq_drop k l
  rw [hm]
  exact List.drop_sublist m l

/-- Length of the Python slice `l[-k:]` for `k ≥ 1`. -/
theorem pySliceLast_length {α : Type} {k : ℕ} (hk : 1 ≤ k) (l : List α) :
    (pySliceLast k l).length = min k l.length := by
  unfold pySliceLast
  rw [if_neg (by omega), List.length_drop]
  omega

/-- Every index selected by lines 52-61 is an in-range index of the
similarity vector. -/
theorem select_top_indices_mem {s : List ℚ} {t : ℚ} {k : ℕ} {i : ℕ}
    (h : i ∈ select_top_indices s t k) : i < s.length := by
  simp only [select_top_indices] at h
  split at h
  · rw [List.mem_reverse] at h
    exact mem_np_argsort.mp (List.Sublist.mem h (pySliceLast_sublist _ _))
  · have h' := List.Sublist.mem h (List.take_sublist _ _)
    simp only [np_fancy_index, List.mem_map, List.mem_reverse] at h'
    obtain ⟨p, hp, rfl⟩ := h'
    have hpm : p < (np_where_ge s t).length := by
      simpa using mem_np_argsort.mp hp
    rw [List.getD_eq_getElem _ 0 hpm]
    exact (mem_np_where_ge.mp (List.getElem_mem hpm)).1

/-- The threshold path emits the qualifying indices in strictly descending
similarity order, ties in strictly descending index order. -/
theorem select_threshold_pairwise (s : List ℚ) (t : ℚ) :
    List.Pairwise (fun i j => s.getD j 0 < s.getD i 0 ∨ (s.getD j 0 = s.getD i 0 ∧ j < i))
      (np_fancy_index (np_where_ge s t)
        ((np_argsort ((np_where_ge s t).map (fun i => s.getD i 0))).reverse)) := by
  have hsort := np_argsort_sorted ((np_where_ge s t).map (fun i => s.getD i 0))
  have hrev : List.Pairwise
      (fun p q => argsortKey ((np_where_ge s t).map (fun i => s.getD i 0)) q p)
      ((np_argsort ((np_where_ge s t).map (fun i => s.getD i 0))).reverse) :=
    List.pairwise_reverse.mpr hsort
  have hnd : ((np_argsort ((np_where_ge s t).map (fun i => s.getD i 0))).reverse).Nodup := by
    rw [List.nodup_reverse]
    exact np_argsort_nodup _
  unfold np_fancy_index
  rw [List.pairwise_map]
  apply (hrev.and hnd).imp_of_mem
  intro p q hpL hqL hpq
  obtain ⟨hkey, hne⟩ := hpq
  have hp : p < (np_where_ge s t).length := by
    simpa using mem_np_argsort.mp (List.mem_reverse.mp hpL)
  have hq : q < (np_where_ge s t).length := by
    simpa using mem_np_argsort.mp (List.mem_reverse.mp hqL)
  have ep := getD_map_getD (np_where_ge s t) s hp
  have eq' := getD_map_getD (np_where_ge s t) s hq
  rcases hkey with hlt | ⟨heq, hle⟩
  · left
    rw [← ep, ← eq']
    exact hlt
  · right
    constructor
    · rw [← ep, ← eq']
      exact heq
    · have hqp : q < p := lt_of_le_of_ne hle (fun h => hne h.symm)
      rw [List.getD_eq_getElem _ 0 hq, List.getD_eq_getElem _ 0 hp]
      exact (List.pairwise_iff_getElem.mp (np_where_ge_sorted s t)) q p hq hp hqp

/-- The fallback path emits indices in strictly descending similarity
order, ties in strictly descending index order. -/
theorem select_fallback_pairwise (s : List ℚ) (k : ℕ) :
    List.Pairwise (fun i j => s.getD j 0 < s.getD i 0 ∨ (s.getD j 0 = s.getD i 0 ∧ j < i))
      ((pySliceLast k (np_argsort s)).reverse) := by
  have hslice : List.Pairwise (argsortKey s) (pySliceLast k (np_argsort s)) :=
    List.Pairwise.sublist (pySliceLast_sublist _ _) (np_argsort_sorted s)
  have hnd : (pySliceLast k (np_argsort s)).Nodup :=
    List.Nodup.sublist (pySliceLast_sublist _ _) (np_argsort_nodup s)
  rw [List.pairwise_reverse]
  apply (hslice.and hnd).imp
  intro i j hij
  obtain ⟨hkey, hne⟩ := hij
  rcases hkey with hlt | ⟨heq, hle⟩
  · exact Or.inl hlt
  · exact Or.inr ⟨heq, lt_of_le_of_ne hle hne⟩

/-- Whichever path is taken, the selected indices are in strictly
descending similarity order, ties in strictly descending index order. -/
theorem select_top_indices_pairwise (s : List ℚ) (t : ℚ) (k : ℕ) :
    List.Pairwise (fun i j => s.getD j 0 < s.getD i 0 ∨ (s.getD j 0 = s.getD i 0 ∧ j < i))
      (select_top_indices s t k) := by
  simp only [select_top_indices]
  split
  · exact select_fallback_pairwise s k
  · exact List.Pairwise.sublist (List.take_sublist _ _) (select_threshold_pairwise s t)

/-- For a positive `top_k` the selection returns at most
`min top_k n` indices. -/
theorem select_top_indices_length_le (s : List ℚ) (t : ℚ) {k : ℕ} (hk : 1 ≤ k) :
    (select_top_indices s t k).length ≤ min k s.length := by
  simp only [select_top_indices]
  split
  · rw [List.length_reverse, pySliceLast_length hk, np_argsort_length]
  · rw [List.length_take]
    simp only [np_fancy_index, List.length_map, List.length_reverse, np_argsort_length]
    exact min_le_min le_rfl (np_where_ge_length_le s t)

/-- For a positive `top_k` and a non-empty similarity vector the selection
is non-empty. -/
theorem select_top_indices_ne_nil {s : List ℚ} {t : ℚ} {k : ℕ}
    (hs : s ≠ []) (hk : 1 ≤ k) : select_top_indices s t k ≠ [] := by
  have hlen : 0 < s.length := List.length_pos.mpr hs
  apply List.ne_nil_of_length_pos
  simp only [select_top_indices]
  split
  · rw [List.length_reverse, pySliceLast_length hk, np_argsort_length]
    omega
  · rename_i hnz
    rw [List.length_take]
    simp only [np_fancy_index, List.length_map, List.length_reverse, np_argsort_length]
    omega

/-- On the threshold path every selected index is a qualifying index. -/
theorem select_top_indices_subset_where {s : List ℚ} {t : ℚ} {k : ℕ}
    (hnz : ¬(np_where_ge s t).length = 0) :
    ∀ i ∈ select_top_indices s t k, i ∈ np_where_ge s t := by
  intro i hi
  simp only [select_top_indices] at hi
  rw [if_neg hnz] at hi
  have h' := List.Sublist.mem hi (List.take_sublist _ _)
  simp only [np_fancy_index, List.mem_map, List.mem_reverse] at h'
  obtain ⟨p, hp, rfl⟩ := h'
  have hpm : p < (np_where_ge s t).length := by
    simpa using mem_np_argsort.mp hp
  rw [List.getD_eq_getElem _ 0 hpm]
  exact List.getElem_mem hpm

/-- On the threshold path the selection returns exactly
`min top_k |S|` indices, where `S` is the qualifying set. -/
theorem select_top_indices_length_threshold {s : List ℚ} {t : ℚ} {k : ℕ}
    (hnz : ¬(np_where_ge s t).length = 0) :
    (select_top_indices s t k).length = min k (np_where_ge s t).length := by
  simp only [select_top_indices]
  rw [if_neg hnz, List.length_take]
  simp only [np_fancy_index, List.length_map, List.length_reverse, np_argsort_length]

/-- A successful `np.dot` returns the vector of row dot products. -/
theorem np_dot_mv_ok {A : List (List ℚ)} {v s : List ℚ}
    (h : np_dot_mv A v = .ok s) : s = A.map (fun row => listDot row v) := by
  unfold np_dot_mv at h
  split at h
  · simp only [Except.ok.injEq] at h
    exact h.symm
  · simp at h

/-- When every row matches the query dimension, `np.dot` succeeds. -/
theorem np_dot_mv_ok_of_dims {A : List (List ℚ)} {v : List ℚ}
    (hdim : ∀ r ∈ A, r.length = v.length) :
    np_dot_mv A v = .ok (A.map (fun row => listDot row v)) := by
  unfold np_dot_mv
  rw [if_pos]
  rw [List.all_eq_true]
  intro r hr
  exact decide_eq_true (hdim r hr)

/-- When some row disagrees with the query dimension, `np.dot` raises its
shape error. -/
theorem np_dot_mv_error {A : List (List ℚ)} {v : List ℚ}
    (hrow : ∃ r ∈ A, r.length ≠ v.length) :
    np_dot_mv A v = .error .dimensionMismatch := by
  unfold np_dot_mv
  rw [if_neg]
  rw [List.all_eq_true]
  intro hall
  obtain ⟨r, hr, hne⟩ := hrow
  exact hne (of_decide_eq_true (hall r hr))

/-- The similarity vector has one entry per reference row. -/
theorem np_dot_mv_length {A : List (List ℚ)} {v s : List ℚ}
    (h : np_dot_mv A v = .ok s) : s.length = A.length := by
  rw [np_dot_mv_ok h]
  simp

/-- Reading one entry of the similarity vector gives the plain dot product
of the corresponding reference row with the query. -/
theorem np_dot_mv_getD {A : List (List ℚ)} {v s : List ℚ}
    (h : np_dot_mv A v = .ok s) {i : ℕ} (hi : i < A.length) :
    s.getD i 0 = listDot (A.getD i []) v := by
  rw [np_dot_mv_ok h, List.getD_eq_getElem _ _ (by simpa using hi), List.getElem_map,
    List.getD_eq_getElem _ _ hi]

/-- Destructuring of a successful run of the matcher. -/
theorem find_eq_ok {q : List ℚ} {db : List (List ℚ)} {props : List DbProposition}
    {t : ℚ} {k : ℕ} {results : List MatchResult}
    (h : find_similar_propositions q db props t k = .ok results) :
    ∃ s, np_dot_mv db q = .ok s ∧
      results = (select_top_indices s t k).map (fun idx =>
        ⟨(props.getD idx ⟨"", "Unknown proposition"⟩).text,
         (props.getD idx ⟨"", "Unknown proposition"⟩).id,
         s.getD idx 0⟩) := by
  unfold find_similar_propositions at h
  cases hdot : np_dot_mv db q with
  | error e =>
      rw [hdot] at h
      simp at h
  | ok s =>
      rw [hdot] at h
      simp only [Except.ok.injEq] at h
      exact ⟨s, rfl, h.symm⟩

/-- Destructuring of a successful index selection. -/
theorem selected_eq_ok {q : List ℚ} {db : List (List ℚ)} {t : ℚ} {k : ℕ} {idxs : List ℕ}
    (h : selected_indices q db t k = .ok idxs) :
    ∃ s, np_dot_mv db q = .ok s ∧ idxs = select_top_indices s t k := by
  unfold selected_indices at h
  cases hdot : np_dot_mv db q with
  | error e =>
      rw [hdot] at h
      simp at h
  | ok s =>
      rw [hdot] at h
      simp only [Except.ok.injEq] at h
      exact ⟨s, rfl, h.symm⟩

/-- When every row matches the query dimension, the matcher succeeds and
its output is the mapped selection. -/
theorem find_eq_ok_of_dims {q : List ℚ} {db : List (List ℚ)} {props : List DbProposition}
    {t : ℚ} {k : ℕ} (hdim : ∀ r ∈ db, r.length = q.length) :
    find_similar_propositions q db props t k =
      .ok ((select_top_indices (db.map (fun row => listDot row q)) t k).map (fun idx =>
        ⟨(props.getD idx ⟨"", "Unknown proposition"⟩).text,
         (props.getD idx ⟨"", "Unknown proposition"⟩).id,
         (db.map (fun row => listDot row q)).getD idx 0⟩)) := by
  unfold find_similar_propositions
  rw [np_dot_mv_ok_of_dims hdim]

/-- C1: for every non-empty `reference_embeddings` collection (of matching
dimensionality) and every `top_k >= 1`, the matcher returns a non-empty
sequence of Matches, even when the threshold exceeds every similarity
value, thanks to the fallback to the `top_k` entries by raw similarity. -/
theorem find_similar_propositions_nonempty
    (q : List ℚ) (db : List (List ℚ)) (props : List DbProposition) (t : ℚ) (k : ℕ)
    (hne : db ≠ []) (hk : 1 ≤ k) (hdim : ∀ r ∈ db, r.length = q.length) :
    ∃ results, find_similar_propositions q db props t k = .ok results ∧ results ≠ [] := by
  refine ⟨_, find_eq_ok_of_dims hdim, ?_⟩
  have hs : db.map (fun row => listDot row q) ≠ [] := by
    intro hcon
    rw [List.map_eq_nil_iff] at hcon
    exact hne hcon
  intro hcon
  rw [List.map_eq_nil_iff] at hcon
  exact select_top_indices_ne_nil hs hk hcon

/-- C2: for every query, reference collection, threshold and `top_k`, every
adjacent pair `(m1, m2)` in a successfully returned sequence satisfies
`m1.similarity >= m2.similarity`. -/
theorem find_similar_propositions_descending
    (q : List ℚ) (db : List (List ℚ)) (props : List DbProposition) (t : ℚ) (k : ℕ)
    (results : List MatchResult)
    (hok : find_similar_propositions q db props t k = .ok results) :
    List.Chain' (fun m1 m2 => m2.similarity ≤ m1.similarity) results := by
  obtain ⟨s, hdot, rfl⟩ := find_eq_ok hok
  apply List.Pairwise.chain'
  rw [List.pairwise_map]
  apply (select_top_indices_pairwise s t k).imp
  intro i j hij
  rcases hij with h | ⟨h, _⟩
  · exact le_of_lt h
  · exact le_of_eq h

/-- C3: for every valid (positive) `top_k`, a successfully returned
sequence has length at most `min top_k n` where `n` is the reference
collection size. -/
theorem find_similar_propositions_bounded
    (q : List ℚ) (db : List (List ℚ)) (props : List DbProposition) (t : ℚ) (k : ℕ)
    (results : List MatchResult)
    (hok : find_similar_propositions q db props t k = .ok results)
    (hk : 1 ≤ k) :
    results.length ≤ min k db.length := by
  obtain ⟨s, hdot, rfl⟩ := find_eq_ok hok
  rw [List.length_map]
  have h := select_top_indices_length_le s t hk
  rwa [np_dot_mv_length hdot] at h

/-- C4: when at least `top_k >= 1` reference entries reach the threshold,
every returned Match has similarity at least the threshold. -/
theorem find_similar_propositions_threshold_satisfiable
    (q : List ℚ) (db : List (List ℚ)) (props : List DbProposition) (t : ℚ) (k : ℕ)
    (results : List MatchResult)
    (hok : find_similar_propositions q db props t k = .ok results)
    (hk : 1 ≤ k)
    (hcount : k ≤ (np_where_ge (db.map (fun row => listDot row q)) t).length) :
    ∀ m ∈ results, t ≤ m.similarity := by
  obtain ⟨s, hdot, rfl⟩ := find_eq_ok hok
  have hseq := np_dot_mv_ok hdot
  subst hseq
  intro m hm
  rw [List.mem_map] at hm
  obtain ⟨idx, hidx, rfl⟩ := hm
  have hnz : ¬(np_where_ge (db.map (fun row => listDot row q)) t).length = 0 := by omega
  exact (mem_np_where_ge.mp (select_top_indices_subset_where hnz idx hidx)).2

/-- C10: when at least one reference entry reaches the threshold, every
returned Match has similarity at least the threshold, the result has
exactly `min top_k |S|` entries, and the selected indices are drawn only
from the qualifying set `S`. -/
theorem find_similar_propositions_threshold_no_padding
    (q : List ℚ) (db : List (List ℚ)) (props : List DbProposition) (t : ℚ) (k : ℕ)
    (results : List MatchResult)
    (hok : find_similar_propositions q db props t k = .ok results)
    (hS : np_where_ge (db.map (fun row => listDot row q)) t ≠ []) :
    (∀ m ∈ results, t ≤ m.similarity) ∧
    results.length = min k (np_where_ge (db.map (fun row => listDot row q)) t).length ∧
    (∀ idxs, selected_indices q db t k = .ok idxs →
      ∀ i ∈ idxs, i ∈ np_where_ge (db.map (fun row => listDot row q)) t) := by
  obtain ⟨s, hdot, rfl⟩ := find_eq_ok hok
  have hseq := np_dot_mv_ok hdot
  subst hseq
  have hnz : ¬(np_where_ge (db.map (fun row => listDot row q)) t).length = 0 := by
    intro h
    exact hS (List.length_eq_zero.mp h)
  refine ⟨?_, ?_, ?_⟩
  · intro m hm
    rw [List.mem_map] at hm
    obtain ⟨idx, hidx, rfl⟩ := hm
    exact (mem_np_where_ge.mp (select_top_indices_subset_where hnz idx hidx)).2
  · rw [List.length_map]
    exact select_top_indices_length_threshold hnz
  · intro idxs hsel i hi
    obtain ⟨s2, hdot2, rfl⟩ := selected_eq_ok hsel
    have hseq2 := np_dot_mv_ok hdot2
    subst hseq2
    exact select_top_indices_subset_where hnz i hi

/-- C5 (amended): on reference collections small enough for numpy's
argsort to run its stable insertion sort (at most 15 entries, below the
small-array cutoff), equal similarity values are returned in descending
original index order (last-seen-wins), on both the threshold path and the
fallback path: the source applies `[::-1]` to an ascending argsort whose
ties are then in ascending index order.  For larger collections numpy's
introsort makes the tie order implementation-defined. -/
theorem selected_indices_tiebreak_desc
    (q : List ℚ) (db : List (List ℚ)) (t : ℚ) (k : ℕ) (idxs : List ℕ)
    (_hsmall : db.length ≤ 15)
    (hok : selected_indices q db t k = .ok idxs) :
    List.Pairwise (fun i j =>
      (db.map (fun row => listDot row q)).getD i 0 =
        (db.map (fun row => listDot row q)).getD j 0 → j < i) idxs := by
  obtain ⟨s, hdot, rfl⟩ := selected_eq_ok hok
  have hseq := np_dot_mv_ok hdot
  subst hseq
  apply (select_top_indices_pairwise _ t k).imp
  intro i j hij heq
  rcases hij with h | ⟨_, hj⟩
  · rw [heq] at h
    exact absurd h (lt_irrefl _)
  · exact hj

/-- C6 (amended): an empty reference collection is not guarded: the
matcher returns a silent empty result, and no `EmptyReferenceSet` failure
exists anywhere in the source. -/
theorem find_similar_propositions_empty_silent
    (q : List ℚ) (props : List DbProposition) (t : ℚ) (k : ℕ) :
    find_similar_propositions q [] props t k = .ok [] := by
  have hdot : np_dot_mv [] q = .ok [] := by
    unfold np_dot_mv
    simp
  unfold find_similar_propositions
  rw [hdot]
  have hsel : select_top_indices [] t k = [] := by
    simp only [select_top_indices]
    split
    · have hargs : np_argsort ([] : List ℚ) = [] := by
        have h := np_argsort_length ([] : List ℚ)
        simpa [List.length_eq_zero] using h
      rw [hargs]
      rcases pySliceLast_eq_drop k ([] : List ℕ) with ⟨m, hm⟩
      rw [hm]
      simp
    · rename_i hnz
      exfalso
      apply hnz
      simp [np_where_ge]
  simp [hsel]

/-- C7: a query of dimension `d1` against a (non-empty) reference
collection of dimension `d2 ≠ d1` makes the matcher fail with the
dimension mismatch error raised inside `np.dot`. -/
theorem find_similar_propositions_dim_mismatch
    (q : List ℚ) (db : List (List ℚ)) (props : List DbProposition) (t : ℚ) (k : ℕ)
    (d1 d2 : ℕ)
    (hne : db ≠ []) (hq : q.length = d1) (hd : ∀ r ∈ db, r.length = d2) (hneq : d2 ≠ d1) :
    find_similar_propositions q db props t k = .error .dimensionMismatch := by
  obtain ⟨r0, hr0⟩ : ∃ r, r ∈ db := by
    cases db with
    | nil => exact absurd rfl hne
    | cons a l => exact ⟨a, List.mem_cons_self a l⟩
  have hrow : ∃ r ∈ db, r.length ≠ q.length :=
    ⟨r0, hr0, by rw [hd r0 hr0, hq]; exact hneq⟩
  have herr := np_dot_mv_error hrow
  unfold find_similar_propositions
  rw [herr]

/-- C8 (amended): the matcher performs no finiteness validation: for every
dimension-consistent input over the IEEE NaN fragment — including inputs
whose embeddings contain NaN — it returns a result, and no
`InvalidEmbedding` failure exists anywhere in the source. -/
theorem find_similar_propositionsF_no_invalid_embedding
    (q : List FVal) (db : List (List FVal)) (props : List DbProposition) (t : FVal) (k : ℕ)
    (hdim : ∀ r ∈ db, r.length = q.length) :
    ∃ results, find_similar_propositionsF q db props t k = .ok results := by
  have hdot : np_dot_mvF db q = .ok (db.map (fun row => listDotF row q)) := by
    unfold np_dot_mvF
    rw [if_pos]
    rw [List.all_eq_true]
    intro r hr
    exact decide_eq_true (hdim r hr)
  unfold find_similar_propositionsF
  rw [hdot]
  exact ⟨_, rfl⟩

/-- Reading a mapped list at an in-range position, with arbitrary
defaults. -/
theorem getD_map_of_lt {α β : Type} (f : α → β) (l : List α) {j : ℕ}
    (hj : j < l.length) (d : β) (d0 : α) :
    (l.map f).getD j d = f (l.getD j d0) := by
  rw [List.getD_eq_getElem _ _ (by simpa using hj), List.getElem_map,
    List.getD_eq_getElem _ _ hj]

/-- C9: the `j`-th returned Match is built exactly from the `j`-th selected
reference entry: its display text and id are that entry's, and its reported
similarity is the plain dot product of that entry's embedding with the
query — the matcher performs no re-normalization — hence, for
unit-normalized inputs, it equals the standard cosine similarity formula
`dot(a,b) / (‖a‖·‖b‖)`. -/
theorem find_similar_propositions_similarity_eq_dot
    (q : List ℚ) (db : List (List ℚ)) (props : List DbProposition) (t : ℚ) (k : ℕ)
    (results : List MatchResult) (idxs : List ℕ)
    (hok : find_similar_propositions q db props t k = .ok results)
    (hsel : selected_indices q db t k = .ok idxs)
    (j : ℕ) (hj : j < results.length) :
    j < idxs.length ∧
    idxs.getD j 0 < db.length ∧
    results.getD j ⟨"", "", 0⟩ =
      ⟨(props.getD (idxs.getD j 0) ⟨"", "Unknown proposition"⟩).text,
       (props.getD (idxs.getD j 0) ⟨"", "Unknown proposition"⟩).id,
       listDot (db.getD (idxs.getD j 0) []) q⟩ ∧
    (sumSq (db.getD (idxs.getD j 0) []) = 1 → sumSq q = 1 →
      ((results.getD j ⟨"", "", 0⟩).similarity : ℝ) =
        (listDot (db.getD (idxs.getD j 0) []) q : ℝ) /
          (Real.sqrt ((sumSq (db.getD (idxs.getD j 0) []) : ℝ)) *
            Real.sqrt ((sumSq q : ℝ)))) := by
  obtain ⟨s, hdot, rfl⟩ := find_eq_ok hok
  obtain ⟨s2, hdot2, hidxs⟩ := selected_eq_ok hsel
  rw [hdot] at hdot2
  have hs2 : s2 = s := (Except.ok.inj hdot2).symm
  rw [hs2] at hidxs
  subst hidxs
  have hj' : j < (select_top_indices s t k).length := by simpa using hj
  have hmem : (select_top_indices s t k).getD j 0 ∈ select_top_indices s t k := by
    rw [List.getD_eq_getElem _ _ hj']
    exact List.getElem_mem hj'
  have hlt : (select_top_indices s t k).getD j 0 < db.length := by
    have h1 := select_top_indices_mem hmem
    rwa [np_dot_mv_length hdot] at h1
  have h3 := getD_map_of_lt (fun idx =>
      (⟨(props.getD idx ⟨"", "Unknown proposition"⟩).text,
        (props.getD idx ⟨"", "Unknown proposition"⟩).id,
        s.getD idx 0⟩ : MatchResult))
    (select_top_indices s t k) hj' ⟨"", "", 0⟩ 0
  rw [np_dot_mv_getD hdot hlt] at h3
  refine ⟨hj', hlt, h3, ?_⟩
  intro h1 h2
  rw [h3, h1, h2]
  show ((listDot (db.getD ((select_top_indices s t k).getD j 0) []) q : ℚ) : ℝ) = _
  norm_num [Real.sqrt_one]

/-- Concrete run of the matcher on the spec's first example scenario:
similarities `[9, 4, 7]`, threshold `6`, `top_k = 2` select entries `0`
then `2`. -/
theorem eval_threshold_run :
    find_similar_propositions [1] [[9], [4], [7]] [⟨"a", "ta"⟩, ⟨"b", "tb"⟩, ⟨"c", "tc"⟩] 6 2 =
      .ok [⟨"ta", "a", 9⟩, ⟨"tc", "c", 7⟩] := by
  norm_num [find_similar_propositions, np_dot_mv, listDot, select_top_indices, np_where_ge,
    np_argsort, argsortKey, pySliceLast, np_fancy_index, List.range_succ]

/-- Concrete qualifying set of the same run: entries `0` and `2` reach the
threshold. -/
theorem eval_where_run :
    np_where_ge (List.map (fun row => listDot row [1]) [[9], [4], [7]]) 6 = [0, 2] := by
  norm_num [np_where_ge, listDot, List.range_succ]

/-- Concrete run of the index selection on two entries tied in similarity:
the entry with the larger original index comes first. -/
theorem eval_tie_run :
    selected_indices [1] [[1], [1]] 0 2 = .ok [1, 0] := by
  norm_num [selected_indices, np_dot_mv, listDot, select_top_indices, np_where_ge,
    np_argsort, argsortKey, pySliceLast, np_fancy_index, List.range_succ]

/-- Concrete index selection of the threshold-path run: entries 0 then 2. -/
theorem eval_threshold_sel :
    selected_indices [1] [[9], [4], [7]] 6 2 = .ok [0, 2] := by
  norm_num [selected_indices, np_dot_mv, listDot, select_top_indices, np_where_ge,
    np_argsort, argsortKey, pySliceLast, np_fancy_index, List.range_succ]

/-- C5 (counterexample): two entries tied at the same similarity, original
indices 0 and 1, `threshold = 0`, `top_k = 2`: the matcher selects index 1
before index 0, not index 0 before index 1 as claimed. -/
theorem selected_indices_tiebreak_counterexample :
    selected_indices [1] [[1], [1]] 0 2 = .ok [1, 0] ∧ ([1, 0] : List ℕ) ≠ [0, 1] :=
  ⟨eval_tie_run, by decide⟩

/-- C6 (counterexample): an empty reference collection yields the silent
empty result `ok []`; no `EmptyReferenceSet` failure occurs. -/
theorem find_similar_propositions_empty_counterexample :
    find_similar_propositions [1] [] [] 1 4 = .ok [] := rfl

/-- C8 (counterexample): a query embedding containing the non-finite value
NaN produces an ordinary non-empty result (with NaN similarity) instead of
failing with `InvalidEmbedding`. -/
theorem find_similar_propositionsF_nan_counterexample :
    FVal.nan ∈ [FVal.nan] ∧
    find_similar_propositionsF [FVal.nan] [[FVal.fin 1]] [⟨"p1", "t1"⟩] (FVal.fin 1) 4 =
      .ok [⟨"t1", "p1", FVal.nan⟩] :=
  ⟨List.mem_cons_self _ _, rfl⟩

/-- Witness for C1 at a concrete fallback-path input: one reference entry,
threshold above its similarity, `top_k = 1`. -/
theorem find_similar_propositions_nonempty_witness :
    ∃ results, find_similar_propositions [1] [[1]] [⟨"a", "ta"⟩] 2 1 = .ok results ∧
      results ≠ [] :=
  find_similar_propositions_nonempty [1] [[1]] [⟨"a", "ta"⟩] 2 1 (by decide) (by decide)
    (by decide)

/-- Witness for C2 at the concrete threshold-path run. -/
theorem find_similar_propositions_descending_witness :
    List.Chain' (fun m1 m2 => m2.similarity ≤ m1.similarity)
      [(⟨"ta", "a", 9⟩ : MatchResult), ⟨"tc", "c", 7⟩] :=
  find_similar_propositions_descending [1] [[9], [4], [7]]
    [⟨"a", "ta"⟩, ⟨"b", "tb"⟩, ⟨"c", "tc"⟩] 6 2 [⟨"ta", "a", 9⟩, ⟨"tc", "c", 7⟩]
    eval_threshold_run

/-- Witness for C3 at the concrete threshold-path run. -/
theorem find_similar_propositions_bounded_witness :
    ([(⟨"ta", "a", 9⟩ : MatchResult), ⟨"tc", "c", 7⟩] : List MatchResult).length ≤ min 2 3 :=
  find_similar_propositions_bounded [1] [[9], [4], [7]]
    [⟨"a", "ta"⟩, ⟨"b", "tb"⟩, ⟨"c", "tc"⟩] 6 2 [⟨"ta", "a", 9⟩, ⟨"tc", "c", 7⟩]
    eval_threshold_run (by decide)

/-- Witness for C4 at the concrete threshold-path run, instantiated at the
first returned Match. -/
theorem find_similar_propositions_threshold_satisfiable_witness :
    (6 : ℚ) ≤ (⟨"ta", "a", 9⟩ : MatchResult).similarity :=
  find_similar_propositions_threshold_satisfiable [1] [[9], [4], [7]]
    [⟨"a", "ta"⟩, ⟨"b", "tb"⟩, ⟨"c", "tc"⟩] 6 2 [⟨"ta", "a", 9⟩, ⟨"tc", "c", 7⟩]
    eval_threshold_run (by decide) (by rw [eval_where_run]; decide)
    ⟨"ta", "a", 9⟩ (List.mem_cons_self _ _)

/-- Witness for the amended C5 at the concrete tied run. -/
theorem selected_indices_tiebreak_desc_witness :
    List.Pairwise (fun i j =>
      (List.map (fun row => listDot row [1]) [[1], [1]]).getD i 0 =
        (List.map (fun row => listDot row [1]) [[1], [1]]).getD j 0 → j < i) [1, 0] :=
  selected_indices_tiebreak_desc [1] [[1], [1]] 0 2 [1, 0] (by decide) eval_tie_run

/-- Witness for C7: query of dimension 1 against a reference row of
dimension 2. -/
theorem find_similar_propositions_dim_mismatch_witness :
    find_similar_propositions [1] [[1, 2]] [] 0 3 = .error .dimensionMismatch :=
  find_similar_propositions_dim_mismatch [1] [[1, 2]] [] 0 3 1 2 (by decide) (by decide)
    (by decide) (by decide)

/-- Witness for the amended C8 at the concrete NaN-containing input. -/
theorem find_similar_propositionsF_no_invalid_embedding_witness :
    ∃ results, find_similar_propositionsF [FVal.nan] [[FVal.fin 1]] [⟨"p1", "t1"⟩]
      (FVal.fin 1) 4 = .ok results :=
  find_similar_propositionsF_no_invalid_embedding [FVal.nan] [[FVal.fin 1]] [⟨"p1", "t1"⟩]
    (FVal.fin 1) 4 (by decide)

/-- Witness for C9 at the concrete threshold-path run, instantiated at the
first returned Match. -/
theorem find_similar_propositions_similarity_eq_dot_witness :
    0 < ([0, 2] : List ℕ).length ∧
    ([0, 2] : List ℕ).getD 0 0 < ([[9], [4], [7]] : List (List ℚ)).length ∧
    ([(⟨"ta", "a", 9⟩ : MatchResult), ⟨"tc", "c", 7⟩] : List MatchResult).getD 0 ⟨"", "", 0⟩ =
      ⟨(([⟨"a", "ta"⟩, ⟨"b", "tb"⟩, ⟨"c", "tc"⟩] : List DbProposition).getD
          (([0, 2] : List ℕ).getD 0 0) ⟨"", "Unknown proposition"⟩).text,
       (([⟨"a", "ta"⟩, ⟨"b", "tb"⟩, ⟨"c", "tc"⟩] : List DbProposition).getD
          (([0, 2] : List ℕ).getD 0 0) ⟨"", "Unknown proposition"⟩).id,
       listDot (([[9], [4], [7]] : List (List ℚ)).getD (([0, 2] : List ℕ).getD 0 0) []) [1]⟩ ∧
    (sumSq (([[9], [4], [7]] : List (List ℚ)).getD (([0, 2] : List ℕ).getD 0 0) []) = 1 →
      sumSq [(1 : ℚ)] = 1 →
      ((([(⟨"ta", "a", 9⟩ : MatchResult), ⟨"tc", "c", 7⟩] : List MatchResult).getD 0
          ⟨"", "", 0⟩).similarity : ℝ) =
        (listDot (([[9], [4], [7]] : List (List ℚ)).getD
            (([0, 2] : List ℕ).getD 0 0) []) [1] : ℝ) /
          (Real.sqrt ((sumSq (([[9], [4], [7]] : List (List ℚ)).getD
              (([0, 2] : List ℕ).getD 0 0) []) : ℝ)) *
            Real.sqrt ((sumSq [(1 : ℚ)] : ℝ)))) :=
  find_similar_propositions_similarity_eq_dot [1] [[9], [4], [7]]
    [⟨"a", "ta"⟩, ⟨"b", "tb"⟩, ⟨"c", "tc"⟩] 6 2 [⟨"ta", "a", 9⟩, ⟨"tc", "c", 7⟩] [0, 2]
    eval_threshold_run eval_threshold_sel 0 (by decide)

/-- Witness for C10 at the concrete threshold-path run, instantiated at the
first returned Match and the first selected index. -/
theorem find_similar_propositions_threshold_no_padding_witness :
    (6 : ℚ) ≤ (⟨"ta", "a", 9⟩ : MatchResult).similarity ∧
    ([(⟨"ta", "a", 9⟩ : MatchResult), ⟨"tc", "c", 7⟩] : List MatchResult).length =
      min 2 (np_where_ge (List.map (fun row => listDot row [1]) [[9], [4], [7]]) 6).length ∧
    (0 : ℕ) ∈ np_where_ge (List.map (fun row => listDot row [1]) [[9], [4], [7]]) 6 :=
  ⟨(find_similar_propositions_threshold_no_padding [1] [[9], [4], [7]]
      [⟨"a", "ta"⟩, ⟨"b", "tb"⟩, ⟨"c", "tc"⟩] 6 2 [⟨"ta", "a", 9⟩, ⟨"tc", "c", 7⟩]
      eval_threshold_run (by rw [eval_where_run]; decide)).1
      ⟨"ta", "a", 9⟩ (List.mem_cons_self _ _),
   (find_similar_propositions_threshold_no_padding [1] [[9], [4], [7]]
      [⟨"a", "ta"⟩, ⟨"b", "tb"⟩, ⟨"c", "tc"⟩] 6 2 [⟨"ta", "a", 9⟩, ⟨"tc", "c", 7⟩]
      eval_threshold_run (by rw [eval_where_run]; decide)).2.1,
   (find_similar_propositions_threshold_no_padding [1] [[9], [4], [7]]
      [⟨"a", "ta"⟩, ⟨"b", "tb"⟩, ⟨"c", "tc"⟩] 6 2 [⟨"ta", "a", 9⟩, ⟨"tc", "c", 7⟩]
      eval_threshold_run (by rw [eval_where_run]; decide)).2.2
      [0, 2] eval_threshold_sel 0 (List.mem_cons_self _ _)⟩
